import Mathlib

set_option maxRecDepth 8000

/-!
Verification of the openclaw web-provider message pipeline
(`monitorWebProvider` and its helpers): echo guard, inbound batching,
heartbeat handling, session snapshots, outbound delivery and the
reconnect loop.  Each definition is a shallow embedding of the
corresponding TypeScript function; theorems settle the spec claims.
-/

namespace OpenClaw

/-! ## Echo guard

The connector keeps `recentlySent : Set<string>` with capacity
`MAX_RECENT_MESSAGES = 100`.  A JS `Set` iterates in insertion order and
re-adding a present element does not move it, so the set is modelled as an
insertion-ordered list of distinct strings (oldest first). -/

def MAX_RECENT_MESSAGES : Nat := 100

/-- JS `Set.add`: append at the end of insertion order when absent;
adding an element that is already present leaves the set unchanged. -/
def guardAdd (g : List String) (t : String) : List String :=
  if t ∈ g then g else g ++ [t]

/-- The eviction step `if (recentlySent.size > MAX_RECENT_MESSAGES)
delete(values().next().value)`: drop the single oldest entry when the
size exceeds the capacity. -/
def guardEvictIfOver (g : List String) : List String :=
  if g.length > MAX_RECENT_MESSAGES then g.drop 1 else g

/-- Echo-guard registration performed by `processBatch` after a delivery:
when the reply has text (JS truthiness: non-empty), add both the reply
text and the combined batch body, then run a single eviction check. -/
def processBatchRegister (g : List String) (replyText : Option String)
    (combinedBody : String) : List String :=
  match replyText with
  | none => g
  | some t =>
    if t = "" then g
    else guardEvictIfOver (guardAdd (guardAdd g t) combinedBody)

/-- Echo-guard registration performed by the `startIpcServer` send
callback: when the message is non-empty, add it and run a single
eviction check. -/
def ipcRegister (g : List String) (message : String) : List String :=
  if message = "" then g else guardEvictIfOver (guardAdd g message)

/-- Result of the echo check at the head of the `onMessage` handler. -/
inductive InboundStep
  | skippedEcho
  | enqueued
deriving DecidableEq

/-- The echo check at the head of `onMessage`: a body present in the
guard is skipped (the handler returns before `enqueueBatch`, so the
message is neither batched nor dispatched) and the body is deleted from
the guard; any other body proceeds to `enqueueBatch`. -/
def onMessageEchoCheck (g : List String) (body : String) :
    InboundStep × List String :=
  if body ∈ g then (InboundStep.skippedEcho, g.erase body)
  else (InboundStep.enqueued, g)

theorem guardAdd_nodup {g : List String} (h : g.Nodup) (t : String) :
    (guardAdd g t).Nodup := by
  unfold guardAdd
  split
  · exact h
  · next hmem =>
    simpa [List.nodup_append] using ⟨h, fun hx => hmem hx⟩

theorem guardEvictIfOver_nodup {g : List String} (h : g.Nodup) :
    (guardEvictIfOver g).Nodup := by
  unfold guardEvictIfOver
  split
  · exact h.sublist (List.drop_sublist 1 g)
  · exact h

theorem processBatchRegister_nodup {g : List String} (h : g.Nodup)
    (t : Option String) (b : String) : (processBatchRegister g t b).Nodup := by
  unfold processBatchRegister
  match t with
  | none => exact h
  | some s =>
    simp only
    split
    · exact h
    · exact guardEvictIfOver_nodup (guardAdd_nodup (guardAdd_nodup h s) b)

theorem ipcRegister_nodup {g : List String} (h : g.Nodup) (m : String) :
    (ipcRegister g m).Nodup := by
  unfold ipcRegister
  split
  · exact h
  · exact guardEvictIfOver_nodup (guardAdd_nodup h m)

theorem onMessageEchoCheck_nodup {g : List String} (h : g.Nodup)
    (b : String) : (onMessageEchoCheck g b).2.Nodup := by
  unfold onMessageEchoCheck
  split
  · exact h.erase b
  · exact h

/-- C1: a text present in the echo guard suppresses exactly one inbound
message with that body: the hit is skipped (neither batched nor
dispatched), the text is deleted from the guard on the hit, and a second
inbound message with the same body is enqueued normally. -/
theorem echo_suppressed_exactly_once (g : List String) (T : String)
    (hnd : g.Nodup) (hmem : T ∈ g) :
    onMessageEchoCheck g T = (InboundStep.skippedEcho, g.erase T) ∧
    (onMessageEchoCheck (g.erase T) T).1 = InboundStep.enqueued := by
  constructor
  · simp [onMessageEchoCheck, hmem]
  · have hnot : T ∉ g.erase T := by
      intro hc
      exact absurd ((hnd.mem_erase_iff).1 hc).1 (by simp)
    simp [onMessageEchoCheck, hnot]

theorem echo_suppressed_exactly_once_witness :
    onMessageEchoCheck ["hello", "other"] "hello"
        = (InboundStep.skippedEcho, ["other"]) ∧
    (onMessageEchoCheck ["other"] "hello").1 = InboundStep.enqueued := by
  have h := echo_suppressed_exactly_once ["hello", "other"] "hello"
    (by decide) (by decide)
  simpa using h

/-- A guard state of 100 distinct one-character strings, i.e. the
`recentlySent` set exactly at its nominal capacity. -/
def guardAtCapacity : List String :=
  (List.range 100).map (fun n => String.mk [Char.ofNat (161 + n)])

/-- C10: the capacity bound fails on the batch-delivery path.  With the
guard at its capacity of 100, registering a delivered reply whose text
and combined body are both new inserts two entries but evicts only one,
leaving 101 entries; a second such registration leaves 102.  The
`MAX_RECENT_MESSAGES = 100` constant and the eviction logic show the
intended bound, so this is a slip in the code (the IPC path, which adds
one entry per eviction check, does keep the bound). -/
theorem echoGuard_capacity_violated :
    guardAtCapacity.length = 100 ∧
    MAX_RECENT_MESSAGES = 100 ∧
    (processBatchRegister guardAtCapacity (some "x") "y").length = 101 ∧
    (processBatchRegister
      (processBatchRegister guardAtCapacity (some "x") "y")
      (some "z") "w").length = 102 := by
  decide

/-- The IPC registration path does keep the capacity bound: one
insertion followed by one eviction check never leaves more than the
capacity (provided it held before). -/
theorem ipcRegister_bounded {g : List String}
    (h : g.length ≤ MAX_RECENT_MESSAGES) (m : String) :
    (ipcRegister g m).length ≤ MAX_RECENT_MESSAGES := by
  unfold ipcRegister guardAdd guardEvictIfOver
  split
  · exact h
  · split
    · split
      · simp only [List.length_drop]
        omega
      · exact h
    · split
      · next hgt =>
        simp only [List.length_drop, List.length_append, List.length_cons,
          List.length_nil] at hgt ⊢
        omega
      · next hle =>
        simp only [List.length_append, List.length_cons, List.length_nil,
          gt_iff_lt, not_lt] at hle ⊢
        omega

theorem ipcRegister_bounded_witness :
    ["a"].length ≤ MAX_RECENT_MESSAGES ∧
    (ipcRegister ["a"] "b").length ≤ MAX_RECENT_MESSAGES :=
  ⟨by decide, ipcRegister_bounded (by decide) "b"⟩

/-! ## Inbound batching

`monitorWebProvider` keeps `pendingBatches : Map<string, PendingBatch>`
keyed by sender.  `enqueueBatch` appends the message to the sender's
bucket; `processBatch` defers while the command queue is busy and
otherwise removes the bucket, joins one line per message with a newline
and dispatches the combined body once (unless the combined body is an
echo).  Timer handles are irrelevant to the claims and are omitted. -/

/-- One inbound message as received by the `onMessage` handler.  The
source fields are `from` and `to`; they are named `sender` and
`recipient` here because both words are reserved in Lean. -/
structure WebInboundMsg where
  sender : String
  recipient : String
  body : String
  id : Option String
  timestamp : Option Int
deriving DecidableEq

/-- The pending-batch map, as an insertion-ordered association list
(a JS `Map` keyed by sender; at most one bucket per sender). -/
abbrev BatchMap := List (String × List WebInboundMsg)

/-- JS `Map.get` (keys are unique, so the first match is the entry). -/
def batchFind : BatchMap → String → Option (List WebInboundMsg)
  | [], _ => none
  | p :: rest, k => if p.1 = k then some p.2 else batchFind rest k

/-- JS `Map.set`: replace the value in place when the key is present,
otherwise append a new binding at the end. -/
def batchSet : BatchMap → String → List WebInboundMsg → BatchMap
  | [], k, v => [(k, v)]
  | p :: rest, k, v => if p.1 = k then (k, v) :: rest else p :: batchSet rest k v

/-- JS `Map.delete`. -/
def batchErase : BatchMap → String → BatchMap
  | [], _ => []
  | p :: rest, k => if p.1 = k then batchErase rest k else p :: batchErase rest k

/-- Embeds `enqueueBatch` up to its flush decision: append the message
to the sender's bucket (creating the bucket on first message). -/
def enqueueBatch (m : BatchMap) (msg : WebInboundMsg) : BatchMap :=
  batchSet m msg.sender ((batchFind m msg.sender).getD [] ++ [msg])

/-- Embeds `buildLine`: timestamp prefix (rendering delegated to the JS
`Intl` formatter, passed in as `fmtTs`) followed by the resolved message
prefix and the raw body. -/
def buildLine (fmtTs : Option Int → String) (msgPre : String)
    (msg : WebInboundMsg) : String :=
  fmtTs msg.timestamp ++ (if msgPre = "" then "" else msgPre ++ " ") ++ msg.body

/-- Outcome of one `processBatch` invocation. -/
inductive BatchStep
  | noop
  | deferredBusy
  | suppressedEcho (batches : BatchMap) (guard : List String)
  | dispatched (combinedBody : String) (latest : Option WebInboundMsg)
      (batches : BatchMap) (guard : List String)
deriving DecidableEq

/-- Embeds `processBatch`: return when the sender has no pending
messages; re-schedule while the command queue is busy; otherwise delete
the bucket, join one `buildLine` line per message (arrival order) with
newlines, check the combined body against the echo guard, and dispatch
the combined body as a single prompt. -/
def processBatchStep (fmtTs : Option Int → String) (msgPre : String)
    (queueSize : Nat) (guard : List String) (m : BatchMap)
    (sender : String) : BatchStep :=
  match batchFind m sender with
  | none => BatchStep.noop
  | some msgs =>
    if msgs = [] then BatchStep.noop
    else if queueSize > 0 then BatchStep.deferredBusy
    else
      let m' := batchErase m sender
      let combined := String.intercalate "\n" (msgs.map (buildLine fmtTs msgPre))
      if combined ∈ guard then BatchStep.suppressedEcho m' (guard.erase combined)
      else BatchStep.dispatched combined msgs.getLast? m' guard

theorem batchFind_erase_self (m : BatchMap) (k : String) :
    batchFind (batchErase m k) k = none := by
  induction m with
  | nil => rfl
  | cons p rest ih =>
    by_cases h : p.1 = k
    · simpa [batchErase, h] using ih
    · simpa [batchErase, batchFind, h] using ih

theorem batchFind_erase_other (m : BatchMap) (k other : String)
    (hne : other ≠ k) :
    batchFind (batchErase m k) other = batchFind m other := by
  induction m with
  | nil => rfl
  | cons p rest ih =>
    by_cases h : p.1 = k
    · have hp : ¬p.1 = other := by
        rw [h]
        exact fun hc => hne hc.symm
      simpa [batchErase, batchFind, h, hp, Ne.symm hne] using ih
    · by_cases h2 : p.1 = other
      · simp [batchErase, batchFind, h, h2, hne]
      · simpa [batchErase, batchFind, h, h2, hne] using ih

/-- C2: a pending batch of `N` messages for one sender is flushed as a
whole exactly once.  When the command queue is free and the combined
body is not an echo, `processBatch` dispatches a single combined body
made of one `buildLine` line per message, joined in arrival order; the
sender's bucket is removed before the dispatch (so no second flush can
see these messages) and every other sender's bucket is untouched. -/
theorem batch_flushed_atomically (fmtTs : Option Int → String)
    (msgPre sender : String) (guard : List String) (m : BatchMap)
    (msgs : List WebInboundMsg)
    (hfind : batchFind m sender = some msgs) (hne : msgs ≠ [])
    (hecho : String.intercalate "\n" (msgs.map (buildLine fmtTs msgPre)) ∉ guard) :
    processBatchStep fmtTs msgPre 0 guard m sender
      = BatchStep.dispatched
          (String.intercalate "\n" (msgs.map (buildLine fmtTs msgPre)))
          msgs.getLast? (batchErase m sender) guard ∧
    batchFind (batchErase m sender) sender = none ∧
    ∀ other, other ≠ sender →
      batchFind (batchErase m sender) other = batchFind m other := by
  refine ⟨?_, batchFind_erase_self m sender,
    fun other h => batchFind_erase_other m sender other h⟩
  simp [processBatchStep, hfind, hne, hecho]

/-- Concrete run of `batch_flushed_atomically`: two messages from
sender `s` and one pending message from sender `t`. -/
def msgA : WebInboundMsg := ⟨"s", "me", "first", some "id1", some 5⟩

def msgB : WebInboundMsg := ⟨"s", "me", "second", some "id2", some 6⟩

def msgC : WebInboundMsg := ⟨"t", "me", "other", none, none⟩

def demoBatches : BatchMap := [("s", [msgA, msgB]), ("t", [msgC])]

theorem batch_flushed_atomically_witness :
    processBatchStep (fun _ => "") "" 0 [] demoBatches "s"
      = BatchStep.dispatched
          (String.intercalate "\n" ([msgA, msgB].map (buildLine (fun _ => "") "")))
          [msgA, msgB].getLast? (batchErase demoBatches "s") [] ∧
    String.intercalate "\n" ([msgA, msgB].map (buildLine (fun _ => "") ""))
      = "first\nsecond" ∧
    batchFind (batchErase demoBatches "s") "s" = none ∧
    batchFind (batchErase demoBatches "s") "t" = some [msgC] := by
  have h := batch_flushed_atomically (fun _ => "") "" "s" []
    demoBatches [msgA, msgB] (by decide) (by decide) (by decide)
  exact ⟨h.1, by decide, h.2.1, by decide⟩

/-! ## String helpers

Text is modelled as `List Char`.  `jsTrim` embeds JS `String.trim`
(restricted to the common ASCII whitespace characters plus the Unicode
line separators; the heartbeat token and the test inputs contain none of
the exotic ones) and `removeAll` embeds `replaceAll(tok, "")`, removing
non-overlapping occurrences left to right. -/

def isJsWhitespace (c : Char) : Bool :=
  c = ' ' || c = '\t' || c = '\n' || c = '\r' ||
  c.toNat = 11 || c.toNat = 12 || c.toNat = 160 ||
  c.toNat = 8232 || c.toNat = 8233 || c.toNat = 65279

def jsTrim (cs : List Char) : List Char :=
  ((cs.dropWhile isJsWhitespace).reverse.dropWhile isJsWhitespace).reverse

/-- Remove every non-overlapping occurrence of `tok` from `cs`,
scanning left to right; `fuel` bounds the recursion and `cs.length`
always suffices. -/
def removeAllGo (tok : List Char) : Nat → List Char → List Char
  | _, [] => []
  | 0, cs => cs
  | fuel + 1, c :: rest =>
    if tok.isPrefixOf (c :: rest) then
      removeAllGo tok fuel ((c :: rest).drop tok.length)
    else c :: removeAllGo tok fuel rest

/-- JS `replaceAll(tok, "")` for a non-empty `tok`. -/
def removeAll (tok cs : List Char) : List Char :=
  removeAllGo tok cs.length cs

/-! ## Heartbeat token stripping -/

def HEARTBEAT_TOKEN : List Char := "HEARTBEAT_OK".toList

/-- Result of `stripHeartbeatToken`. -/
structure StripResult where
  shouldSkip : Bool
  text : List Char
deriving DecidableEq

/-- Embeds `stripHeartbeatToken`: a missing or all-whitespace text is
skipped; a trimmed text equal to the token is skipped; otherwise the
token occurrences are removed and the result re-trimmed, skipping when
nothing remains (in which case the shown text falls back to the trimmed
original, per `withoutToken || trimmed`). -/
def stripHeartbeatToken (raw : Option (List Char)) : StripResult :=
  match raw with
  | none => ⟨true, []⟩
  | some cs =>
    let trimmed := jsTrim cs
    if trimmed = [] then ⟨true, []⟩
    else if trimmed = HEARTBEAT_TOKEN then ⟨true, []⟩
    else
      let withoutToken := jsTrim (removeAll HEARTBEAT_TOKEN trimmed)
      ⟨withoutToken = [], if withoutToken = [] then trimmed else withoutToken⟩

/-! ## Outbound text chunking

`deliverWebReply` splits the reply text with
`text.match(new RegExp(".{1,4000}", "g")) ?? []`.  A JS `.` matches
every character except the line terminators LF, CR, U+2028 and U+2029,
and global matching greedily takes up to 4000 such characters per
match, advancing one position past any terminator.  The result is each
maximal terminator-free run, split into pieces of at most 4000. -/

def WEB_TEXT_LIMIT : Nat := 4000

def isLineSep (c : Char) : Bool :=
  c = '\n' || c = '\r' || c.toNat = 8232 || c.toNat = 8233

/-- Single pass building the regex matches; `cur` is the current
(reversed) partial chunk, always shorter than the limit. -/
def textChunksGo : List Char → List Char → List (List Char)
  | cur, [] => if cur = [] then [] else [cur.reverse]
  | cur, c :: rest =>
    if isLineSep c then
      if cur = [] then textChunksGo [] rest
      else cur.reverse :: textChunksGo [] rest
    else if WEB_TEXT_LIMIT ≤ cur.length + 1 then
      (c :: cur).reverse :: textChunksGo [] rest
    else textChunksGo (c :: cur) rest

/-- Embeds the `textChunks` computation of `deliverWebReply`. -/
def textChunks (t : List Char) : List (List Char) :=
  textChunksGo [] t

theorem textChunksGo_join (t : List Char) :
    ∀ cur, (textChunksGo cur t).flatten
      = cur.reverse ++ t.filter (fun c => !isLineSep c) := by
  induction t with
  | nil =>
    intro cur
    by_cases h : cur = [] <;> simp [textChunksGo, h]
  | cons c rest ih =>
    intro cur
    by_cases hs : isLineSep c
    · by_cases h : cur = []
      · simp [textChunksGo, hs, h, ih]
      · simp [textChunksGo, hs, h, ih]
    · by_cases hl : WEB_TEXT_LIMIT ≤ cur.length + 1
      · simp [textChunksGo, hs, hl, ih]
      · simp [textChunksGo, hs, hl, ih]

theorem textChunksGo_bounds (t : List Char) :
    ∀ cur, cur.length < WEB_TEXT_LIMIT →
      ∀ ch ∈ textChunksGo cur t, ch ≠ [] ∧ ch.length ≤ WEB_TEXT_LIMIT := by
  induction t with
  | nil =>
    intro cur hcur ch hch
    by_cases h : cur = []
    · simp [textChunksGo, h] at hch
    · simp only [textChunksGo, if_neg h, List.mem_singleton] at hch
      subst hch
      exact ⟨by simpa using h, by simpa using Nat.le_of_lt hcur⟩
  | cons c rest ih =>
    intro cur hcur ch hch
    by_cases hs : isLineSep c
    · by_cases h : cur = []
      · simp only [textChunksGo, if_pos hs, if_pos h] at hch
        exact ih [] (by simp [WEB_TEXT_LIMIT]) ch hch
      · simp only [textChunksGo, if_pos hs, if_neg h, List.mem_cons] at hch
        rcases hch with hch | hch
        · subst hch
          exact ⟨by simpa using h, by simpa using Nat.le_of_lt hcur⟩
        · exact ih [] (by simp [WEB_TEXT_LIMIT]) ch hch
    · by_cases hl : WEB_TEXT_LIMIT ≤ cur.length + 1
      · simp only [textChunksGo, if_neg hs, if_pos hl, List.mem_cons] at hch
        rcases hch with hch | hch
        · subst hch
          constructor
          · simp
          · simpa using Nat.succ_le_of_lt hcur
        · exact ih [] (by simp [WEB_TEXT_LIMIT]) ch hch
      · simp only [textChunksGo, if_neg hs, if_neg hl] at hch
        have hlen : (c :: cur).length < WEB_TEXT_LIMIT := by
          simpa using Nat.lt_of_not_le hl
        exact ih (c :: cur) hlen ch hch

/-! ## Outbound delivery -/

/-- The reply payload handed to `deliverWebReply`. -/
structure ReplyPayload where
  text : Option (List Char)
  mediaUrl : Option String
  mediaUrls : Option (List String)
deriving DecidableEq

inductive MediaKind
  | image
  | audio
  | video
  | document
deriving DecidableEq

/-- Environment behaviour for one media item: `loadFails` means
`loadWebMedia` throws (before the caption chunk is consumed),
`sendFails` means `msg.sendMedia` throws (after the caption chunk was
consumed), `ok` means the item is sent. -/
inductive MediaOutcome
  | loadFails
  | sendFails (kind : MediaKind)
  | ok (kind : MediaKind)
deriving DecidableEq

/-- Observable delivery actions: a plain text send (`msg.reply`), a
media send with its optional caption, and the failure log written by
the `catch` block. -/
inductive DeliveryEvent
  | text (chunk : List Char)
  | media (url : String) (kind : MediaKind) (caption : Option (List Char))
  | logFail (url : String)
deriving DecidableEq

/-- Embeds the media loop of `deliverWebReply`.  At index 0 the head of
`remaining` is shifted out as the caption before `sendMedia` runs; in
the `catch` block the fallback text is sent only when `remaining` is
still non-empty after that shift.  Returns the events in order and the
chunks still unsent. -/
def deliverMediaLoop (outcome : String → MediaOutcome) :
    Nat → List String → List (List Char) →
      List DeliveryEvent × List (List Char)
  | _, [], remaining => ([], remaining)
  | i, url :: rest, remaining =>
    match outcome url with
    | MediaOutcome.loadFails =>
      match i, remaining with
      | 0, chunk :: more =>
        let r := deliverMediaLoop outcome 1 rest more
        (DeliveryEvent.logFail url :: DeliveryEvent.text chunk :: r.1, r.2)
      | 0, [] =>
        let r := deliverMediaLoop outcome 1 rest []
        (DeliveryEvent.logFail url :: r.1, r.2)
      | i + 1, remaining =>
        let r := deliverMediaLoop outcome (i + 2) rest remaining
        (DeliveryEvent.logFail url :: r.1, r.2)
    | MediaOutcome.sendFails _ =>
      match i, remaining with
      | 0, _ :: c1 :: more =>
        let r := deliverMediaLoop outcome 1 rest more
        (DeliveryEvent.logFail url :: DeliveryEvent.text c1 :: r.1, r.2)
      | 0, _ :: [] =>
        let r := deliverMediaLoop outcome 1 rest []
        (DeliveryEvent.logFail url :: r.1, r.2)
      | 0, [] =>
        let r := deliverMediaLoop outcome 1 rest []
        (DeliveryEvent.logFail url :: r.1, r.2)
      | i + 1, remaining =>
        let r := deliverMediaLoop outcome (i + 2) rest remaining
        (DeliveryEvent.logFail url :: r.1, r.2)
    | MediaOutcome.ok k =>
      match i, remaining with
      | 0, chunk :: more =>
        let r := deliverMediaLoop outcome 1 rest more
        (DeliveryEvent.media url k (some chunk) :: r.1, r.2)
      | 0, [] =>
        let r := deliverMediaLoop outcome 1 rest []
        (DeliveryEvent.media url k none :: r.1, r.2)
      | i + 1, remaining =>
        let r := deliverMediaLoop outcome (i + 2) rest remaining
        (DeliveryEvent.media url k none :: r.1, r.2)

/-- Embeds `deliverWebReply`: chunk the text, resolve the media list
(`mediaUrls` when non-empty, else the single `mediaUrl`), send the
chunks directly when there is no media, otherwise run the media loop
and send the remaining chunks afterwards.  The function is total: a
media failure is consumed inside the loop and never propagates. -/
def deliverWebReply (r : ReplyPayload) (outcome : String → MediaOutcome) :
    List DeliveryEvent :=
  let chunks := textChunks (r.text.getD [])
  let mediaList :=
    match r.mediaUrls with
    | some (u :: us) => u :: us
    | _ =>
      match r.mediaUrl with
      | some u => [u]
      | none => []
  match mediaList with
  | [] => chunks.map DeliveryEvent.text
  | _ :: _ =>
    let res := deliverMediaLoop outcome 0 mediaList chunks
    res.1 ++ res.2.map DeliveryEvent.text

/-- C5 counterexample: chunking is done with the JS regex `.` which
never matches a line terminator, so the newline of `"a\nb"` is dropped:
the chunks are `["a", "b"]` and their concatenation `"ab"` differs from
the original text.  This refutes the claim that the concatenation of
the produced chunks always equals the original text. -/
theorem textChunks_not_content_preserving :
    textChunks "a\nb".toList = ["a".toList, "b".toList] ∧
    (textChunks "a\nb".toList).flatten ≠ "a\nb".toList := by
  decide

/-- C5 as amended: every produced chunk is non-empty and at most
`WEB_TEXT_LIMIT = 4000` characters; the concatenation of the chunks
equals the original text with its line terminators removed (hence
equals the original exactly when the text contains no line
terminator); and with no media present `deliverWebReply` sends exactly
the chunks, in order. -/
theorem textChunks_amended (t : List Char) :
    (∀ ch ∈ textChunks t, ch ≠ [] ∧ ch.length ≤ WEB_TEXT_LIMIT) ∧
    (textChunks t).flatten = t.filter (fun c => !isLineSep c) ∧
    ((∀ c ∈ t, isLineSep c = false) → (textChunks t).flatten = t) ∧
    ∀ outcome, deliverWebReply ⟨some t, none, none⟩ outcome
      = (textChunks t).map DeliveryEvent.text := by
  refine ⟨?_, ?_, ?_, ?_⟩
  · exact textChunksGo_bounds t [] (by simp [WEB_TEXT_LIMIT])
  · simpa using textChunksGo_join t []
  · intro hall
    have h2 : (textChunks t).flatten = t.filter (fun c => !isLineSep c) := by
      simpa using textChunksGo_join t []
    rw [h2]
    exact List.filter_eq_self.mpr (fun c hc => by simp [hall c hc])
  · intro outcome
    rfl

theorem textChunks_amended_witness :
    (∀ ch ∈ textChunks "hello".toList,
      ch ≠ [] ∧ ch.length ≤ WEB_TEXT_LIMIT) ∧
    (textChunks "hello".toList).flatten = "hello".toList ∧
    deliverWebReply ⟨some "hello".toList, none, none⟩
        (fun _ => MediaOutcome.ok MediaKind.image)
      = (textChunks "hello".toList).map DeliveryEvent.text := by
  have h := textChunks_amended "hello".toList
  exact ⟨h.1, h.2.2.1 (by decide),
    h.2.2.2 (fun _ => MediaOutcome.ok MediaKind.image)⟩

/-- Media environment in which every send call throws. -/
def sendFailOutcome : String → MediaOutcome :=
  fun _ => MediaOutcome.sendFails MediaKind.image

/-- C4 counterexample: with `text="hello world"` (one chunk) and
`mediaUrls=["a.png"]`, when `msg.sendMedia` itself throws the chunk has
already been shifted out as the caption, so the `catch` fallback finds
no remaining chunk: the only event is the failure log and the text is
never sent — refuting "the text is never lost because media failed". -/
theorem deliver_sendFail_text_lost :
    deliverWebReply ⟨some "hello world".toList, none, some ["a.png"]⟩
        sendFailOutcome
      = [DeliveryEvent.logFail "a.png"] := by
  decide

theorem deliverMediaLoop_ok_mem (outcome : String → MediaOutcome)
    (ms : List String) :
    ∀ (i : Nat) (remaining : List (List Char)) (u : String) (k : MediaKind),
      u ∈ ms → outcome u = MediaOutcome.ok k →
      DeliveryEvent.media u k none
        ∈ (deliverMediaLoop outcome (i + 1) ms remaining).1 := by
  induction ms with
  | nil =>
    intro i remaining u k hu
    simp at hu
  | cons url rest ih =>
    intro i remaining u k hu hk
    rcases List.mem_cons.mp hu with h | h
    · subst h
      simp [deliverMediaLoop, hk]
    · have hmem : DeliveryEvent.media u k none
          ∈ (deliverMediaLoop outcome (i + 2) rest remaining).1 :=
        ih (i + 1) remaining u k h hk
      cases houtcome : outcome url with
      | loadFails => simpa [deliverMediaLoop, houtcome] using hmem
      | sendFails k2 => simpa [deliverMediaLoop, houtcome] using hmem
      | ok k2 => simpa [deliverMediaLoop, houtcome] using Or.inr hmem

/-- C4 as amended: the text-preserving fallback applies when *loading*
the first media item throws (the failure happens before the caption
chunk is consumed): the failure is logged, the first chunk is sent as
plain text, every remaining media item whose own attempt succeeds is
still sent, and no error propagates (`deliverWebReply` is total).  When
the send call itself throws the first chunk was already consumed as the
caption and is not resent (see `deliver_sendFail_text_lost`). -/
theorem deliver_loadFail_falls_back (txt : List Char) (url : String)
    (rest : List String) (outcome : String → MediaOutcome)
    (c : List Char) (cs : List (List Char))
    (hchunks : textChunks txt = c :: cs)
    (hload : outcome url = MediaOutcome.loadFails) :
    deliverWebReply ⟨some txt, none, some (url :: rest)⟩ outcome
      = DeliveryEvent.logFail url :: DeliveryEvent.text c ::
        ((deliverMediaLoop outcome 1 rest cs).1
          ++ (deliverMediaLoop outcome 1 rest cs).2.map DeliveryEvent.text) ∧
    ∀ u ∈ rest, ∀ k, outcome u = MediaOutcome.ok k →
      DeliveryEvent.media u k none ∈ (deliverMediaLoop outcome 1 rest cs).1 := by
  constructor
  · simp [deliverWebReply, hchunks, deliverMediaLoop, hload]
  · intro u hu k hk
    exact deliverMediaLoop_ok_mem outcome rest 0 cs u k hu hk

/-- Media environment of the C4 witness: `a.png` fails to load,
everything else is an image that sends fine. -/
def loadFailThenOk : String → MediaOutcome :=
  fun u => if u = "a.png" then MediaOutcome.loadFails
    else MediaOutcome.ok MediaKind.image

theorem deliver_loadFail_falls_back_witness :
    deliverWebReply ⟨some "hello world".toList, none,
        some ["a.png", "b.png"]⟩ loadFailThenOk
      = DeliveryEvent.logFail "a.png"
          :: DeliveryEvent.text "hello world".toList ::
          ((deliverMediaLoop loadFailThenOk 1 ["b.png"] []).1
            ++ (deliverMediaLoop loadFailThenOk 1 ["b.png"] []).2.map
                DeliveryEvent.text) ∧
    DeliveryEvent.media "b.png" MediaKind.image none
      ∈ (deliverMediaLoop loadFailThenOk 1 ["b.png"] []).1 := by
  have h := deliver_loadFail_falls_back "hello world".toList "a.png"
    ["b.png"] loadFailThenOk "hello world".toList [] (by decide) (by decide)
  exact ⟨h.1, h.2 "b.png" (by decide) MediaKind.image (by decide)⟩

/-! ## Session store and snapshot

The session store (`loadSessionStore` / `saveSessionStore` in
`config/sessions.js`) maps session keys to entries; the file I/O is
modelled as explicit store values passed in and out.  Keys are unique,
so association-list lookup and in-place update model the JS object. -/

/-- One persisted session entry: an opaque `sessionId` and `updatedAt`
in epoch milliseconds. -/
structure SessionEntry where
  sessionId : String
  updatedAt : Int
deriving DecidableEq

abbrev Store := List (String × SessionEntry)

/-- Property lookup `store[key]`. -/
def storeFind : Store → String → Option SessionEntry
  | [], _ => none
  | p :: rest, k => if p.1 = k then some p.2 else storeFind rest k

/-- The in-place mutation `store[key].updatedAt = t`. -/
def storeSetUpdatedAt : Store → String → Int → Store
  | [], _, _ => []
  | p :: rest, k, t =>
    if p.1 = k then (p.1, ⟨p.2.sessionId, t⟩) :: rest
    else p :: storeSetUpdatedAt rest k t

theorem storeFind_setUpdatedAt_self (s : Store) (k : String) (t : Int)
    (e : SessionEntry) (h : storeFind s k = some e) :
    storeFind (storeSetUpdatedAt s k t) k = some ⟨e.sessionId, t⟩ := by
  induction s with
  | nil => simp [storeFind] at h
  | cons p rest ih =>
    by_cases hp : p.1 = k
    · simp [storeFind, hp] at h
      simp [storeSetUpdatedAt, storeFind, hp, ← h]
    · simp [storeFind, hp] at h
      simpa [storeSetUpdatedAt, storeFind, hp] using ih h

/-- What `getSessionSnapshot` returns. -/
structure SessionSnapshot where
  entry : Option SessionEntry
  idleMinutes : Int
  fresh : Bool
deriving DecidableEq

/-- Embeds `getSessionSnapshot`.  `configuredIdle` stands for the
configured idle minutes after the `??`-fallbacks (the heartbeat
override or the default); the source clamps it with `Math.max(_, 1)`
and reports `fresh` when an entry exists and
`now - entry.updatedAt <= idleMinutes * 60000`.  The key derivation and
store load are inputs; the function only reads the store. -/
def getSessionSnapshot (store : Store) (key : String)
    (configuredIdle : Int) (now : Int) : SessionSnapshot :=
  let entry := storeFind store key
  let idle := max configuredIdle 1
  let fresh :=
    match entry with
    | some e => decide (now - e.updatedAt ≤ idle * 60000)
    | none => false
  ⟨entry, idle, fresh⟩

/-- C9 counterexample: with configured `idleMinutes = 0` the source
clamps the window to one minute, so an entry whose `updatedAt` is
`now - (idleMinutes+1)*60000 = now - 60000` is reported fresh, while
the claimed formula `now - updatedAt <= idleMinutes*60000` calls it
stale. -/
theorem sessionFresh_claim_counterexample :
    (getSessionSnapshot [("k", ⟨"sid", 940000⟩)] "k" 0 1000000).fresh = true ∧
    ¬((1000000 : Int) - 940000 ≤ 0 * 60000) ∧
    (940000 : Int) = 1000000 - (0 + 1) * 60000 := by
  decide

/-- C9 as amended: freshness is the claimed read-time formula with the
configured idle minutes clamped to at least one,
`fresh = (now - entry.updatedAt <= max(idleMinutes,1) * 60000)`; for
every configured value of at least one minute this is exactly the
claimed formula.  The snapshot only reads the store (the embedding
takes the store and returns a snapshot, with no store output), and the
looked-up entry is returned unmodified. -/
theorem sessionFresh_amended (store : Store) (key : String)
    (idleCfg now : Int) (e : SessionEntry)
    (h : storeFind store key = some e) :
    ((getSessionSnapshot store key idleCfg now).fresh = true ↔
      now - e.updatedAt ≤ max idleCfg 1 * 60000) ∧
    (1 ≤ idleCfg →
      ((getSessionSnapshot store key idleCfg now).fresh = true ↔
        now - e.updatedAt ≤ idleCfg * 60000)) ∧
    (getSessionSnapshot store key idleCfg now).entry = some e := by
  refine ⟨?_, ?_, ?_⟩
  · simp [getSessionSnapshot, h]
  · intro h1
    simp [getSessionSnapshot, h, max_eq_left h1]
  · simp [getSessionSnapshot, h]

theorem sessionFresh_amended_witness :
    ((getSessionSnapshot [("k", ⟨"sid", 0⟩)] "k" 5 60000).fresh = true ↔
      (60000 : Int) - 0 ≤ max 5 1 * 60000) ∧
    ((getSessionSnapshot [("k", ⟨"sid", 0⟩)] "k" 5 60000).fresh = true ↔
      (60000 : Int) - 0 ≤ 5 * 60000) ∧
    (getSessionSnapshot [("k", ⟨"sid", 0⟩)] "k" 5 60000).entry
      = some ⟨"sid", 0⟩ := by
  have h := sessionFresh_amended [("k", ⟨"sid", 0⟩)] "k" 5 60000
    ⟨"sid", 0⟩ (by decide)
  exact ⟨h.1, h.2.1 (by decide), h.2.2⟩

/-! ## Heartbeat handling -/

/-- JS truthiness of the whole-reply emptiness check
`!r.text && !r.mediaUrl && !r.mediaUrls?.length`. -/
def replyEmpty (r : ReplyPayload) : Bool :=
  (r.text.getD []).isEmpty && !r.mediaUrl.isSome && (r.mediaUrls.getD []).isEmpty

/-- Embeds `Boolean(r.mediaUrl || (r.mediaUrls?.length ?? 0) > 0)`. -/
def replyHasMedia (r : ReplyPayload) : Bool :=
  r.mediaUrl.isSome || decide ((r.mediaUrls.getD []).length > 0)

/-- Result of one `runWebHeartbeatOnce` call. -/
structure HeartbeatOnceResult where
  sent : Option (List Char)
  store : Store
deriving DecidableEq

/-- The property assignment `store[to] = { ...(store[to] ?? {}),
sessionId, updatedAt: Date.now() }`: both fields of the entry are
overwritten, and a missing key is created (at the end, per JS object
semantics). -/
def storeSetEntry : Store → String → SessionEntry → Store
  | [], k, e => [(k, e)]
  | p :: rest, k, e =>
    if p.1 = k then (k, e) :: rest else p :: storeSetEntry rest k e

/-- Embeds the resolver path of `runWebHeartbeatOnce` (no
`overrideBody`, no `dryRun`).  When a `sessionId` is passed (as the
fallback reply-heartbeat path does), the function first writes
`store[to] = { ..., sessionId, updatedAt: Date.now() }` and only then
takes the session snapshot, so the snapshot already carries the bumped
timestamp; `now` is that `Date.now()` value.  The write is keyed by the
recipient `to` and the snapshot key is derived from `to`; under the
default per-sender scope both are the sender, modelled as the single
`key`.  The resolver may mutate the store further, so the skip branch
re-reads the store (`storeNow`, the state at that moment) and writes
the snapshot's `updatedAt` back when both the snapshot entry and the
current entry exist.  `sent` is the text handed to the sender, `none`
when nothing is sent. -/
def runWebHeartbeatOnce (store0 : Store) (key : String)
    (sessionId : Option String) (now : Int)
    (reply : Option ReplyPayload) (storeNow : Store) : HeartbeatOnceResult :=
  let store1 :=
    match sessionId with
    | some sid => storeSetEntry store0 key ⟨sid, now⟩
    | none => store0
  let snapEntry := storeFind store1 key
  match reply with
  | none => ⟨none, storeNow⟩
  | some r =>
    if replyEmpty r then ⟨none, storeNow⟩
    else
      let stripped := stripHeartbeatToken r.text
      if stripped.shouldSkip && !replyHasMedia r then
        let store' :=
          match snapEntry, storeFind storeNow key with
          | some e, some _ => storeSetUpdatedAt storeNow key e.updatedAt
          | _, _ => storeNow
        ⟨none, store'⟩
      else
        let finalText :=
          if stripped.text.isEmpty then r.text.getD [] else stripped.text
        ⟨some finalText, storeNow⟩

/-- C3: the code violates the claim on the fallback reply-heartbeat
path.  `runReplyHeartbeat` with no recent inbound calls
`runWebHeartbeatOnce` with an explicit `sessionId`; that branch bumps
`store[to].updatedAt` to `Date.now()` *before* the snapshot is taken,
so a token-only reply restores the already-bumped value: here the entry
starts at `updatedAt = 100`, the heartbeat runs at `now = 5000`,
nothing is sent (silent, as claimed), but the entry ends at
`updatedAt = 5000` instead of its pre-heartbeat value `100` — the
heartbeat refreshes the idle timer, which both the claim and the
source's own comment ("restore previous updatedAt so idle expiry still
works") say must not happen.  `heartbeat_token_silent` shows the claim
does hold on the direct path without a `sessionId` write. -/
theorem heartbeat_token_restore_ineffective :
    (storeFind [("k", (⟨"sid", 100⟩ : SessionEntry))] "k").map
        (fun e => e.updatedAt) = some 100 ∧
    (runWebHeartbeatOnce [("k", ⟨"sid", 100⟩)] "k" (some "sid") 5000
        (some ⟨some "HEARTBEAT_OK".toList, none, none⟩)
        [("k", ⟨"sid", 5000⟩)]).sent = none ∧
    (storeFind (runWebHeartbeatOnce [("k", ⟨"sid", 100⟩)] "k" (some "sid")
        5000 (some ⟨some "HEARTBEAT_OK".toList, none, none⟩)
        [("k", ⟨"sid", 5000⟩)]).store "k").map (fun e => e.updatedAt)
      = some 5000 ∧
    (5000 : Int) ≠ 100 := by
  decide

/-- On the direct path (no explicit `sessionId` write before the
snapshot), a heartbeat reply that is exactly the token, or that
collapses to nothing once every token occurrence is stripped, with no
media, is silent success: nothing is sent and the entry's `updatedAt`
is restored to its pre-heartbeat value (the store is re-read as
`storeNow`, which the resolver may have bumped, and the snapshot
timestamp written back).  The text is required to be non-empty: a
wholly empty reply is the separate "empty reply" skip, which performs
no restore. -/
theorem heartbeat_token_silent (store0 storeNow : Store) (key : String)
    (now : Int) (r : ReplyPayload) (e eNow : SessionEntry)
    (hsilent : r.text = some HEARTBEAT_TOKEN ∨
      jsTrim (removeAll HEARTBEAT_TOKEN (jsTrim (r.text.getD []))) = [])
    (htext : r.text.getD [] ≠ [])
    (hmu : r.mediaUrl = none) (hmus : r.mediaUrls.getD [] = [])
    (h0 : storeFind store0 key = some e)
    (hn : storeFind storeNow key = some eNow) :
    (runWebHeartbeatOnce store0 key none now (some r) storeNow).sent = none ∧
    storeFind (runWebHeartbeatOnce store0 key none now (some r) storeNow).store
        key
      = some ⟨eNow.sessionId, e.updatedAt⟩ := by
  obtain ⟨t, ht⟩ : ∃ t, r.text = some t := by
    cases hrt : r.text with
    | none => exact absurd (by simp [hrt]) htext
    | some t => exact ⟨t, rfl⟩
  have htne : t ≠ [] := by simpa [ht] using htext
  have hskip : (stripHeartbeatToken r.text).shouldSkip = true := by
    rcases hsilent with hs | hs
    · rw [hs]
      decide
    · rw [ht] at hs ⊢
      simp only [Option.getD_some] at hs
      unfold stripHeartbeatToken
      by_cases h1 : jsTrim t = []
      · simp [h1]
      · by_cases h2 : jsTrim t = HEARTBEAT_TOKEN
        · simp [h1, h2]
        · simp [h1, h2, hs]
  have hre : replyEmpty r = false := by
    simp [replyEmpty, ht, htne]
  have hm : replyHasMedia r = false := by
    cases hmus2 : r.mediaUrls with
    | none => simp [replyHasMedia, hmu, hmus2]
    | some l =>
      have : l = [] := by simpa [hmus2] using hmus
      simp [replyHasMedia, hmu, hmus2, this]
  constructor
  · simp [runWebHeartbeatOnce, hre, hskip, hm]
  · simp only [runWebHeartbeatOnce, hre, hskip, hm, h0, hn,
      Bool.not_false, Bool.and_self, if_false, if_true]
    simpa using storeFind_setUpdatedAt_self storeNow key e.updatedAt eNow hn

theorem heartbeat_token_silent_witness :
    (runWebHeartbeatOnce [("k", ⟨"sid", 100⟩)] "k" none 5000
        (some ⟨some "HEARTBEAT_OK".toList, none, none⟩)
        [("k", ⟨"sid", 999⟩)]).sent = none ∧
    storeFind (runWebHeartbeatOnce [("k", ⟨"sid", 100⟩)] "k" none 5000
        (some ⟨some "HEARTBEAT_OK".toList, none, none⟩)
        [("k", ⟨"sid", 999⟩)]).store "k" = some ⟨"sid", 100⟩ := by
  have h := heartbeat_token_silent [("k", ⟨"sid", 100⟩)]
    [("k", ⟨"sid", 999⟩)] "k" 5000
    ⟨some "HEARTBEAT_OK".toList, none, none⟩ ⟨"sid", 100⟩ ⟨"sid", 999⟩
    (Or.inl rfl) (by decide) rfl rfl (by decide) (by decide)
  exact h

/-! ## Reply heartbeat tick -/

/-- Embeds the response-prefix application of `runReplyHeartbeat`:
`if (responsePrefix && finalText && !finalText.startsWith(responsePrefix))`
the prefixed text is sent instead. -/
def applyResponsePre (p t : List Char) : List Char :=
  if t ≠ [] ∧ ¬p.isPrefixOf t then p ++ ' ' :: t else t

/-- Result of one `runReplyHeartbeat` tick: whether the synthetic
prompt was resolved at all, and the delivery events produced. -/
structure HeartbeatTick where
  resolverCalled : Bool
  events : List DeliveryEvent
deriving DecidableEq

/-- Embeds `runReplyHeartbeat`.  In order: the tick is skipped outright
while the command queue is non-empty; skipped when the reply heartbeat
is disabled; with a last inbound message, the resolver runs and an
empty or token-only (media-free) reply is silent, otherwise the
response prefix is applied and the reply delivered; without a last
inbound message the fallback recipient's session (if any) is probed via
`runWebHeartbeatOnce` on the store, passing the entry's `sessionId`
(`now` is the tick's `Date.now()`).  Logging is omitted. -/
def runReplyHeartbeat (queued : Nat) (minutes : Option Nat)
    (hasLastInbound : Bool) (fallbackKey : Option String)
    (store0 storeNow : Store) (now : Int)
    (resolverReply : Option ReplyPayload)
    (responsePre : Option (List Char)) (outcome : String → MediaOutcome) :
    HeartbeatTick :=
  if queued > 0 then ⟨false, []⟩
  else
    match minutes with
    | none => ⟨false, []⟩
    | some _ =>
      if hasLastInbound then
        match resolverReply with
        | none => ⟨true, []⟩
        | some r =>
          if replyEmpty r then ⟨true, []⟩
          else
            let stripped := stripHeartbeatToken r.text
            if stripped.shouldSkip && !replyHasMedia r then ⟨true, []⟩
            else
              let finalText :=
                match responsePre with
                | some p => applyResponsePre p stripped.text
                | none => stripped.text
              ⟨true, deliverWebReply { r with text := some finalText } outcome⟩
      else
        match fallbackKey with
        | none => ⟨false, []⟩
        | some key =>
          match storeFind store0 key with
          | none => ⟨false, []⟩
          | some entry =>
            let res := runWebHeartbeatOnce store0 key
              (some entry.sessionId) now resolverReply storeNow
            ⟨true, (res.sent.map (fun t => [DeliveryEvent.text t])).getD []⟩

/-- C8: whenever the outbound command queue is non-empty at a
reply-heartbeat tick, the tick is skipped entirely: the resolver is
never invoked (no synthetic prompt) and no delivery event is produced,
regardless of every other input. -/
theorem heartbeat_skipped_when_queued (queued : Nat) (minutes : Option Nat)
    (hasLastInbound : Bool) (fallbackKey : Option String)
    (store0 storeNow : Store) (now : Int)
    (resolverReply : Option ReplyPayload)
    (responsePre : Option (List Char)) (outcome : String → MediaOutcome)
    (h : queued > 0) :
    runReplyHeartbeat queued minutes hasLastInbound fallbackKey store0
        storeNow now resolverReply responsePre outcome
      = ⟨false, []⟩ := by
  simp [runReplyHeartbeat, h]

theorem heartbeat_skipped_when_queued_witness :
    runReplyHeartbeat 1 (some 30) true none [] [] 5000
        (some ⟨some "alert".toList, none, none⟩) none
        (fun _ => MediaOutcome.ok MediaKind.image)
      = ⟨false, []⟩ ∧
    runReplyHeartbeat 0 (some 30) true none [] [] 5000
        (some ⟨some "alert".toList, none, none⟩) none
        (fun _ => MediaOutcome.ok MediaKind.image)
      = ⟨true, [DeliveryEvent.text "alert".toList]⟩ := by
  refine ⟨heartbeat_skipped_when_queued 1 (some 30) true none [] [] 5000
    (some ⟨some "alert".toList, none, none⟩) none
    (fun _ => MediaOutcome.ok MediaKind.image) (by decide), ?_⟩
  decide

/-! ## Reconnect loop

`monitorWebProvider` loops: wait for the connection to close, reset the
attempt counter after a healthy stretch, stop on cancellation, stop
without any retry on a logged-out close, otherwise increment the
counter, stop with a give-up message once a positive `maxAttempts` is
reached, else compute a backoff delay and retry. -/

/-- Modelled from the spec: `ReconnectPolicy` is defined in
`reconnect.ts`, which is not under the audited sources; the spec lists
its parameters (base delay, growth factor, cap, jitter flag, max
attempts, with 0 meaning unlimited). -/
structure ReconnectPolicy where
  baseMs : Nat
  factor : Nat
  capMs : Nat
  jitter : Bool
  maxAttempts : Nat
deriving DecidableEq

/-- Modelled from the spec: `computeBackoff` is defined in
`reconnect.ts` (not under the audited sources); the spec gives
`delay = min(cap, base * factor^attempts) +- jitter`, and the random
jitter is omitted here. -/
def computeBackoff (p : ReconnectPolicy) (attempts : Nat) : Nat :=
  min p.capMs (p.baseMs * p.factor ^ attempts)

/-- One observed connection close: whether a cancellation (abort signal
or SIGINT) is pending, whether the connection survived longer than one
heartbeat interval (`uptimeMs > heartbeatSeconds*1000`), and the close
classification reported by the channel. -/
structure CloseEvent where
  cancelled : Bool
  healthy : Bool
  isLoggedOut : Bool
  status : Nat
deriving DecidableEq

/-- What one loop iteration decides after a close. -/
inductive StepOutcome
  | stopCancelled
  | stopLoggedOut
  | stopMaxAttempts
  | retry (attempts delayMs : Nat)
deriving DecidableEq

/-- Embeds the tail of one `monitorWebProvider` loop iteration: reset
the counter after a healthy stretch, stop on cancellation, stop
immediately on a logged-out close (surfacing the re-login message),
otherwise increment the counter, stop with the give-up message when a
positive `maxAttempts` has been reached, else back off and retry. -/
def loopStep (p : ReconnectPolicy) (attempts : Nat) (e : CloseEvent) :
    StepOutcome :=
  let a0 := if e.healthy then 0 else attempts
  if e.cancelled then StepOutcome.stopCancelled
  else if e.isLoggedOut then StepOutcome.stopLoggedOut
  else
    let a1 := a0 + 1
    if p.maxAttempts > 0 ∧ p.maxAttempts ≤ a1 then StepOutcome.stopMaxAttempts
    else StepOutcome.retry a1 (computeBackoff p a1)

/-- The `while (true)` loop over a finite script of close events: a
retry continues with the updated counter, any stop ends the loop (no
later event is processed). -/
def runLoop (p : ReconnectPolicy) (attempts : Nat) :
    List CloseEvent → List StepOutcome
  | [] => []
  | e :: rest =>
    match loopStep p attempts e with
    | StepOutcome.retry a d => StepOutcome.retry a d :: runLoop p a rest
    | o => [o]

/-- C6: a close reported as logged out (with no cancellation pending)
stops the connector immediately: the loop's entire remaining trace is
the single logged-out stop — the user-facing re-login message — with no
backoff wait and no further reconnection attempt, whatever events might
have followed. -/
theorem loggedOut_stops_immediately (p : ReconnectPolicy) (attempts : Nat)
    (e : CloseEvent) (rest : List CloseEvent)
    (hc : e.cancelled = false) (hl : e.isLoggedOut = true) :
    runLoop p attempts (e :: rest) = [StepOutcome.stopLoggedOut] := by
  simp [runLoop, loopStep, hc, hl]

theorem loggedOut_stops_immediately_witness :
    runLoop ⟨1000, 2, 60000, false, 5⟩ 2
        (⟨false, false, true, 401⟩ :: [⟨false, false, false, 500⟩])
      = [StepOutcome.stopLoggedOut] :=
  loggedOut_stops_immediately ⟨1000, 2, 60000, false, 5⟩ 2
    ⟨false, false, true, 401⟩ [⟨false, false, false, 500⟩] rfl rfl

theorem runLoop_unlimited (p : ReconnectPolicy) (hmax : p.maxAttempts = 0) :
    ∀ (evs : List CloseEvent) (attempts : Nat),
      (∀ ev ∈ evs, ev.cancelled = false ∧ ev.isLoggedOut = false) →
      (runLoop p attempts evs).length = evs.length ∧
      ∀ o ∈ runLoop p attempts evs, ∃ a d, o = StepOutcome.retry a d := by
  intro evs
  induction evs with
  | nil =>
    intro attempts _
    exact ⟨rfl, by simp [runLoop]⟩
  | cons e rest ih =>
    intro attempts hall
    have he := hall e (List.mem_cons_self e rest)
    have hstep : loopStep p attempts e
        = StepOutcome.retry ((if e.healthy then 0 else attempts) + 1)
            (computeBackoff p ((if e.healthy then 0 else attempts) + 1)) := by
      simp [loopStep, he.1, he.2, hmax]
    have hrest := ih ((if e.healthy then 0 else attempts) + 1)
      (fun ev hev => hall ev (List.mem_cons_of_mem e hev))
    constructor
    · simp [runLoop, hstep, hrest.1]
    · intro o ho
      simp only [runLoop, hstep, List.mem_cons] at ho
      rcases ho with ho | ho
      · exact ⟨_, _, ho⟩
      · exact hrest.2 o ho

/-- C7: a transient (non-logged-out, non-cancelled) close is retried
with the computed backoff; with positive `maxAttempts` the loop
terminates in the give-up stop exactly when the incremented attempt
counter reaches `maxAttempts`, and with `maxAttempts = 0` a whole
script of transient closes is retried at every single step — the
retries are unlimited. -/
theorem transient_close_retry_policy (p : ReconnectPolicy) (attempts : Nat)
    (e : CloseEvent) (evs : List CloseEvent)
    (hc : e.cancelled = false) (hl : e.isLoggedOut = false) :
    (p.maxAttempts > 0 →
      p.maxAttempts ≤ (if e.healthy then 0 else attempts) + 1 →
      loopStep p attempts e = StepOutcome.stopMaxAttempts) ∧
    (p.maxAttempts > 0 →
      (if e.healthy then 0 else attempts) + 1 < p.maxAttempts →
      loopStep p attempts e
        = StepOutcome.retry ((if e.healthy then 0 else attempts) + 1)
            (computeBackoff p ((if e.healthy then 0 else attempts) + 1))) ∧
    (p.maxAttempts = 0 →
      (∀ ev ∈ e :: evs, ev.cancelled = false ∧ ev.isLoggedOut = false) →
      (runLoop p attempts (e :: evs)).length = (e :: evs).length ∧
      ∀ o ∈ runLoop p attempts (e :: evs),
        ∃ a d, o = StepOutcome.retry a d) := by
  refine ⟨?_, ?_, ?_⟩
  · intro hpos hreach
    simp [loopStep, hc, hl, hpos, hreach]
  · intro hpos hbelow
    have : ¬(p.maxAttempts > 0 ∧
        p.maxAttempts ≤ (if e.healthy then 0 else attempts) + 1) := by
      rintro ⟨_, hle⟩
      omega
    simp [loopStep, hc, hl, this]
  · intro hmax hall
    exact runLoop_unlimited p hmax (e :: evs) attempts hall

theorem transient_close_retry_policy_witness :
    loopStep ⟨1000, 2, 60000, false, 3⟩ 2 ⟨false, false, false, 500⟩
      = StepOutcome.stopMaxAttempts ∧
    loopStep ⟨1000, 2, 60000, false, 3⟩ 0 ⟨false, false, false, 500⟩
      = StepOutcome.retry 1 (computeBackoff ⟨1000, 2, 60000, false, 3⟩ 1) ∧
    (runLoop ⟨1000, 2, 60000, false, 0⟩ 7
        [⟨false, false, false, 500⟩, ⟨false, true, false, 408⟩]).length = 2 := by
  have h1 := (transient_close_retry_policy ⟨1000, 2, 60000, false, 3⟩ 2
    ⟨false, false, false, 500⟩ [] rfl rfl).1 (by decide) (by decide)
  have h2 := (transient_close_retry_policy ⟨1000, 2, 60000, false, 3⟩ 0
    ⟨false, false, false, 500⟩ [] rfl rfl).2.1 (by decide) (by decide)
  have h3 := (transient_close_retry_policy ⟨1000, 2, 60000, false, 0⟩ 7
    ⟨false, false, false, 500⟩ [⟨false, true, false, 408⟩] rfl rfl).2.2
    rfl (by decide)
  exact ⟨h1, h2, h3.1⟩

end OpenClaw
